import Mathlib

/-!
Verification of the prime-gap analysis pipeline (aritm-rmt).

Shallow embedding of the Python sources:
- `src/data_fetch.py`: `fetch_oeis_sequence` (parsing loop and fallback path),
  `get_fallback_sequence`, `sieve_of_eratosthenes`, `primes_in_progression`,
  `calculate_gaps`, `normalize_gap`.
- `generate_figures.py`: the early-abort check on missing processed CSV files,
  the per-modulus slope aggregations for figures 3 and 5, and the hardcoded
  RMT prediction series of figure 4.
- `src/analysis.py` is not present in the repository, so rebound detection is
  modelled from the spec (see `analyze_rebounds_count`).

Machine floats (`math.log`, float division in `normalize_gap`) are modelled
over the reals; Python integers are `Int`/`Nat`; Python `%` on integers is the
floor-convention remainder `Int.fmod`.
-/

/-- Embeds `get_fallback_sequence(seq_id, max_terms)` from `src/data_fetch.py`.
The Python function receives `max_terms` but never uses it: it returns the full
hardcoded table for ids 5250 and 101, and `[]` otherwise. -/
def get_fallback_sequence (seq_id : Nat) (max_terms : Nat) : List Int :=
  if seq_id = 5250 then
    [1, 2, 4, 6, 8, 14, 18, 20, 22, 34, 36, 44, 52, 72, 86, 96, 112, 114, 118, 132]
  else if seq_id = 101 then
    [2, 3, 7, 23, 89, 113, 523, 887, 1129, 1327, 9551, 15683, 19609, 31397, 155921]
  else []

/-- Python's `line.split()`: split on whitespace, dropping empty fields. -/
def splitFields (line : String) : List String :=
  (line.split Char.isWhitespace).filter (fun s => !s.isEmpty)

/-- Embeds the line-processing loop of `fetch_oeis_sequence` (success path):
for each line, skip comment lines; split on whitespace; if there are at
least two fields, try to parse the second as an integer; on success append it
and stop as soon as the accumulated list reaches `maxTerms` elements; on parse
failure skip the line.  Python's `int()` is modelled by `String.toInt?`. -/
def fetchLoop (maxTerms : Nat) : List String → List Int → List Int
  | [], data => data
  | line :: rest, data =>
    if line.startsWith "#" then fetchLoop maxTerms rest data
    else
      if h : 2 ≤ (splitFields line).length then
        match ((splitFields line).get ⟨1, by omega⟩).trim.toInt? with
        | some val =>
          if maxTerms ≤ (data ++ [val]).length then data ++ [val]
          else fetchLoop maxTerms rest (data ++ [val])
        | none => fetchLoop maxTerms rest data
      else fetchLoop maxTerms rest data

/-- The success path of `fetch_oeis_sequence`: the HTTP response body, already
split into lines (`response.text.strip().split('\n')`), is processed by the
parsing loop starting from the empty accumulator. -/
def fetch_oeis_success (lines : List String) (maxTerms : Nat) : List Int :=
  fetchLoop maxTerms lines []

/-- The failure path of `fetch_oeis_sequence`: any exception during the request
or response handling is caught and the fallback table is returned. -/
def fetch_oeis_on_failure (seq_id : Nat) (maxTerms : Nat) : List Int :=
  get_fallback_sequence seq_id maxTerms

/-- The initial sieve array of `sieve_of_eratosthenes`:
`np.ones(limit+1)`, then `sieve[:2] = False` and `sieve[4::2] = False`.
Represented as its characteristic function on indices (only indices
`≤ limit` are ever read). -/
def sieveInit : Nat → Bool :=
  fun n => if n < 2 then false else if 4 ≤ n ∧ n % 2 = 0 then false else true

/-- The slice assignment `sieve[i*i::i] = False`: indices `n ≥ i*i` congruent
to `i*i` mod `i` are cleared.  Marks beyond `limit` are never read back. -/
def sieveMark (s : Nat → Bool) (i : Nat) : Nat → Bool :=
  fun n => if i * i ≤ n ∧ (n - i * i) % i = 0 then false else s n

/-- One iteration of the sieve loop body: `if sieve[i]: sieve[i*i::i] = False`. -/
def sieveStep (s : Nat → Bool) (i : Nat) : Nat → Bool :=
  if s i then sieveMark s i else s

/-- The iteration count of `range(3, int(limit**0.5) + 1, 2)`; the Python
float expression `int(limit**0.5)` is the integer square root `Nat.sqrt`. -/
def sieveCount (limit : Nat) : Nat :=
  (Nat.sqrt limit - 1) / 2

/-- The loop indices `range(3, int(limit**0.5) + 1, 2)` = `[3, 5, 7, ...]`. -/
def sieveIdx (limit : Nat) : List Nat :=
  (List.range (sieveCount limit)).map (fun k => 2 * k + 3)

/-- The sieve array after the whole loop, as a characteristic function. -/
def sieveFinal (limit : Nat) : Nat → Bool :=
  (sieveIdx limit).foldl sieveStep sieveInit

/-- Embeds `sieve_of_eratosthenes(limit)` from `src/data_fetch.py`:
early return `[]` for `limit < 2`, otherwise `list(np.where(sieve)[0])`,
the indices `0..limit` whose sieve entry is still set, in increasing order. -/
def sieve_of_eratosthenes (limit : Nat) : List Nat :=
  if limit < 2 then []
  else (List.range (limit + 1)).filter (sieveFinal limit)

/-- Python `%` on integers: the floor-convention remainder (`Int.fmod`),
which matches Python's semantics for negative operands. -/
def pymod (a b : Int) : Int := Int.fmod a b

/-- Embeds `primes_in_progression(primes, a, q)` from `src/data_fetch.py`:
`[p for p in primes if p % q == a]`. -/
def primes_in_progression (primes : List Int) (a q : Int) : List Int :=
  primes.filter (fun p => decide (pymod p q = a))

/-- Embeds `calculate_gaps(primes)` from `src/data_fetch.py`:
differences of consecutive elements. -/
def calculate_gaps (primes : List Int) : List Int :=
  (primes.zip primes.tail).map (fun pr => pr.2 - pr.1)

/-- Embeds `normalize_gap(gap, p)` from `src/data_fetch.py`:
returns `0.0` when `p <= 1`, else `gap / math.log(p) ** 2`.  Machine floats
are modelled over the reals. -/
noncomputable def normalize_gap (gap : ℝ) (p : ℝ) : ℝ :=
  if p ≤ 1 then 0 else gap / Real.log p ^ 2

/-- Modelled from the spec: `analyze_rebounds` lives in `src/analysis.py`,
which is not part of the repository snapshot.  The spec says rebound
detection "scans consecutive R values, records every transition where R
increases (delta = R_next − R_n > 0)"; the rebound count is the number of
such transitions.  R values are modelled as rationals. -/
def analyze_rebounds_count (R : List ℚ) : Nat :=
  ((R.zip R.tail).filter (fun pr => decide (pr.1 < pr.2))).length

/-- Outcome of a run of `generate_figures.main`: either an early abort with a
printed user message and a normal return, or figure generation from the two
most recent processed CSV files. -/
inductive FigRunOutcome where
  | aborted (msg : String)
  | generated (latestRebounds latestSlopes : String)

/-- Embeds the file-discovery phase of `generate_figures.main`: given the
sorted glob results for `rebounds_*.csv` and `progression_slopes_*.csv`, the
code prints "No data files found. Run run_analysis.py first." and returns
normally when either list is empty, else proceeds with the last (most recent)
file of each list. -/
def generate_figures_main (reboundFiles slopeFiles : List String) : FigRunOutcome :=
  if reboundFiles.isEmpty || slopeFiles.isEmpty then
    .aborted "No data files found. Run run_analysis.py first."
  else
    .generated (reboundFiles.getLastD "") (slopeFiles.getLastD "")

/-- The distinct modulus keys of `df_slopes.groupby('q')`, one per distinct
`q` occurring in the rows (a row is a `(q, beta)` pair). -/
def qKeys (rows : List (Int × ℚ)) : List Int :=
  (rows.map Prod.fst).dedup

/-- The number of rows of a `q` group, `len(group)` / the `count` aggregate. -/
def groupCount (rows : List (Int × ℚ)) (q : Int) : Nat :=
  (rows.filter (fun r => decide (r.1 = q))).length

/-- The `mean` aggregate of the `beta` column of a `q` group. -/
def groupMean (rows : List (Int × ℚ)) (q : Int) : ℚ :=
  ((rows.filter (fun r => decide (r.1 = q))).map Prod.snd).sum / (groupCount rows q : ℚ)

/-- Embeds the figure-3 aggregation of `generate_figures.main`:
`beta_by_q = df_slopes.groupby('q')['beta'].agg(['mean','std','count'])`
then `beta_by_q = beta_by_q[beta_by_q['count'] >= 3]`.  Each kept group is
`(q, mean, count)`; the `std` column plays no role in the claims and is
omitted. -/
def beta_by_q (rows : List (Int × ℚ)) : List (Int × ℚ × Nat) :=
  ((qKeys rows).map (fun q => (q, groupMean rows q, groupCount rows q))).filter
    (fun g => decide (3 ≤ g.2.2))

/-- Embeds the figure-5 per-modulus aggregation of `generate_figures.main`:
`for q, group in df_slopes.groupby('q'): if len(group) >= 2:` append
`(q, group['beta'].mean(), ...)`. -/
def fig5_groups (rows : List (Int × ℚ)) : List (Int × ℚ × Nat) :=
  ((qKeys rows).map (fun q => (q, groupMean rows q, groupCount rows q))).filter
    (fun g => decide (2 ≤ g.2.2))

/-- The moduli compared in figure 4: `q_values = [4, 8, 12, 16, 20, 29]`. -/
def q_values : List Int := [4, 8, 12, 16, 20, 29]

/-- The RMT series plotted in figure 4:
`rmt_predictions = [-0.05] * len(q_values)`. -/
def rmt_predictions : List ℚ := List.replicate q_values.length (-5 / 100)

/-- The figure-4 RMT series as a function of the RMT simulator's output.
`generate_figures.main` has no access to simulator results at all (it loads
only the rebounds and slopes CSVs) and computes the series as the constant
`rmt_predictions`; the `rmtOutput` argument records that this available
simulator data is ignored. -/
def figure4_rmt_series (rmtOutput : List (Nat × ℚ)) : List ℚ :=
  rmt_predictions

/-! ## Helper lemmas -/

/-- The parsing loop never grows the accumulator past `maxTerms` once the
accumulator is strictly below the bound: the loop breaks right after the
append that reaches it. -/
theorem fetchLoop_length_le (maxTerms : Nat) (lines : List String) :
    ∀ data : List Int, data.length < maxTerms →
      (fetchLoop maxTerms lines data).length ≤ maxTerms := by
  induction lines with
  | nil =>
    intro data h
    simpa [fetchLoop] using Nat.le_of_lt h
  | cons line rest ih =>
    intro data h
    rw [fetchLoop]
    split
    · exact ih data h
    · split
      · split
        · split
          · simpa using h
          · rename_i hlen
            refine ih _ ?_
            simp only [List.length_append, List.length_cons, List.length_nil] at hlen ⊢
            omega
        · exact ih data h
      · exact ih data h

/-! ## Claims -/

/-- C2 (counterexample): the R sequence `[0, 1]` is monotonically
non-decreasing, yet rebound detection as the spec defines it (record every
transition with `delta > 0`) reports one rebound, not zero. -/
theorem C2_counterexample :
    List.Chain' (· ≤ ·) [(0 : ℚ), 1] ∧ analyze_rebounds_count [(0 : ℚ), 1] = 1 := by
  constructor
  · simp
  · rfl

/-- C2 (amended): for every monotonically non-increasing R sequence, the
rebound count is 0 (no transition has `delta > 0`). -/
theorem C2_rebounds_amended (R : List ℚ) (h : List.Chain' (· ≥ ·) R) :
    analyze_rebounds_count R = 0 := by
  induction R with
  | nil => rfl
  | cons a t ih =>
    cases t with
    | nil => rfl
    | cons b t2 =>
      rw [List.chain'_cons] at h
      have h1 : ¬ a < b := not_lt.mpr h.1
      have key : analyze_rebounds_count (a :: b :: t2) = analyze_rebounds_count (b :: t2) := by
        simp [analyze_rebounds_count, h1]
      rw [key]
      exact ih h.2

/-- C2 (witness for the amended claim at a concrete non-increasing input). -/
theorem C2_witness :
    List.Chain' (· ≥ ·) [(3 : ℚ), 2, 2, 1] ∧ analyze_rebounds_count [(3 : ℚ), 2, 2, 1] = 0 :=
  ⟨by norm_num [List.chain'_cons], C2_rebounds_amended [(3 : ℚ), 2, 2, 1]
    (by norm_num [List.chain'_cons])⟩

/-- C3 (counterexample): on the network-failure path with `max_terms = 5`,
`fetch_oeis_sequence(5250, 5)` returns the full 20-element fallback table,
which exceeds the requested bound: `get_fallback_sequence` ignores its
`max_terms` argument. -/
theorem C3_counterexample :
    fetch_oeis_on_failure 5250 5 =
      [1, 2, 4, 6, 8, 14, 18, 20, 22, 34, 36, 44, 52, 72, 86, 96, 112, 114, 118, 132] ∧
      ¬ (fetch_oeis_on_failure 5250 5).length ≤ 5 :=
  ⟨rfl, by decide⟩

/-- C3 (amended): for `max_terms ≥ 1` the successful-fetch path returns at
most `max_terms` terms; the failure path ignores `max_terms` and returns the
fixed fallback table, whose length is at most 20. -/
theorem C3_amended (lines : List String) (seq_id maxTerms : Nat) (h : 1 ≤ maxTerms) :
    (fetch_oeis_success lines maxTerms).length ≤ maxTerms ∧
      (fetch_oeis_on_failure seq_id maxTerms).length ≤ 20 := by
  constructor
  · exact fetchLoop_length_le maxTerms lines [] (by simpa using h)
  · unfold fetch_oeis_on_failure get_fallback_sequence
    split
    · decide
    · split
      · decide
      · decide

/-- C3 (witness for the amended claim at concrete inputs). -/
theorem C3_witness :
    1 ≤ 1 ∧
      ((fetch_oeis_success [ "0 1", "1 2" ] 1).length ≤ 1 ∧
        (fetch_oeis_on_failure 5250 1).length ≤ 20) :=
  ⟨Nat.le_refl 1, C3_amended [ "0 1", "1 2" ] 5250 1 (Nat.le_refl 1)⟩

/-- C4: for `q ≠ 0`, `primes_in_progression(primes, a, q)` is exactly the
sublist of `primes` (order preserved) whose elements satisfy `p % q == a`
under Python's floor-convention `%`. -/
theorem C4_primes_in_progression (primes : List Int) (a q : Int) (hq : q ≠ 0) :
    (∀ p, p ∈ primes_in_progression primes a q ↔ p ∈ primes ∧ pymod p q = a) ∧
      List.Sublist (primes_in_progression primes a q) primes := by
  refine ⟨fun p => ?_, List.filter_sublist _⟩
  simp [primes_in_progression]

/-- C4 (witness at a concrete input with `q = 3 ≠ 0`). -/
theorem C4_witness :
    (3 : Int) ≠ 0 ∧
      ((∀ p, p ∈ primes_in_progression [2, 3, 5, 7] 1 3 ↔
          p ∈ [(2 : Int), 3, 5, 7] ∧ pymod p 3 = 1) ∧
        List.Sublist (primes_in_progression [2, 3, 5, 7] 1 3) [2, 3, 5, 7]) :=
  ⟨by decide, C4_primes_in_progression [2, 3, 5, 7] 1 3 (by decide)⟩

/-- C5 (counterexample): with slope rows `[(4, 1), (4, 2)]`, the modulus
group `q = 4` has only 2 samples, yet the figure-5 per-modulus aggregation
(threshold `len(group) >= 2`) still reports it; so not every per-modulus
aggregation excludes groups with fewer than 3 samples. -/
theorem C5_counterexample :
    groupCount [((4 : Int), (1 : ℚ)), (4, 2)] 4 = 2 ∧
      4 ∈ (fig5_groups [((4 : Int), (1 : ℚ)), (4, 2)]).map Prod.fst := by
  constructor
  · rfl
  · decide

/-- C5 (amended): the figure-3 aggregation `beta_by_q` excludes every
modulus group with fewer than 3 samples, while the figure-5 aggregation uses
the weaker threshold 2 and reports a group with exactly 2 samples. -/
theorem C5_amended (rows : List (Int × ℚ)) (q : Int) (h : groupCount rows q < 3) :
    q ∉ (beta_by_q rows).map Prod.fst ∧
      (groupCount rows q = 2 → q ∈ (fig5_groups rows).map Prod.fst) := by
  constructor
  · intro hq
    rcases List.mem_map.mp hq with ⟨g, hg, hfst⟩
    rcases List.mem_filter.mp hg with ⟨hmem, hcnt⟩
    rcases List.mem_map.mp hmem with ⟨q', _, hgq⟩
    subst hgq
    simp only [decide_eq_true_eq] at hcnt
    have hq'q : q' = q := hfst
    subst hq'q
    omega
  · intro h2
    have hkey : q ∈ qKeys rows := by
      have hne : (rows.filter (fun r => decide (r.1 = q))) ≠ [] := by
        intro hnil
        have : groupCount rows q = 0 := by simp [groupCount, hnil]
        omega
      rcases List.exists_mem_of_ne_nil _ hne with ⟨r, hr⟩
      rcases List.mem_filter.mp hr with ⟨hrmem, hrq⟩
      have : r.1 = q := by simpa using hrq
      subst this
      exact List.mem_dedup.mpr (List.mem_map_of_mem Prod.fst hrmem)
    refine List.mem_map.mpr ⟨(q, groupMean rows q, groupCount rows q), ?_, rfl⟩
    refine List.mem_filter.mpr ⟨List.mem_map_of_mem _ hkey, ?_⟩
    simp [h2]

/-- C5 (witness for the amended claim at the two-sample input). -/
theorem C5_witness :
    groupCount [((4 : Int), (1 : ℚ)), (4, 2)] 4 < 3 ∧
      (4 ∉ (beta_by_q [((4 : Int), (1 : ℚ)), (4, 2)]).map Prod.fst ∧
        (groupCount [((4 : Int), (1 : ℚ)), (4, 2)] 4 = 2 →
          4 ∈ (fig5_groups [((4 : Int), (1 : ℚ)), (4, 2)]).map Prod.fst)) :=
  ⟨by decide, C5_amended [((4 : Int), (1 : ℚ)), (4, 2)] 4 (by decide)⟩

/-- C6: on the network-failure path, `fetch_oeis_sequence(5250, max_terms)`
returns exactly the fixed 20-element fallback list, for every `max_terms`,
and the failure is non-fatal (a value is returned, not an exception). -/
theorem C6_fallback_5250 (maxTerms : Nat) :
    fetch_oeis_on_failure 5250 maxTerms =
      [1, 2, 4, 6, 8, 14, 18, 20, 22, 34, 36, 44, 52, 72, 86, 96, 112, 114, 118, 132] ∧
      (fetch_oeis_on_failure 5250 maxTerms).length = 20 :=
  ⟨rfl, rfl⟩

/-- C7: `normalize_gap(8, 23) = 8 / ln²(23)`, and in general for every
`p > 1`, `normalize_gap(gap, p) = gap / ln²(p)` (floats modelled as reals). -/
theorem C7_normalize_gap :
    normalize_gap 8 23 = 8 / Real.log 23 ^ 2 ∧
      ∀ gap p : ℝ, 1 < p → normalize_gap gap p = gap / Real.log p ^ 2 := by
  have h : ∀ gap p : ℝ, 1 < p → normalize_gap gap p = gap / Real.log p ^ 2 := by
    intro gap p hp
    rw [normalize_gap, if_neg (not_le.mpr hp)]
  exact ⟨h 8 23 (by norm_num), h⟩

/-- C7 (witness at `gap = 8`, `p = 23`). -/
theorem C7_witness :
    (1 : ℝ) < 23 ∧ normalize_gap 8 23 = 8 / Real.log 23 ^ 2 :=
  ⟨by norm_num, C7_normalize_gap.2 8 23 (by norm_num)⟩

/-- C8: when either list of processed CSV files is empty, figure generation
prints the user message and returns normally (the `.aborted` outcome) rather
than raising. -/
theorem C8_missing_files_abort (reboundFiles slopeFiles : List String)
    (h : reboundFiles = [] ∨ slopeFiles = []) :
    generate_figures_main reboundFiles slopeFiles =
      FigRunOutcome.aborted "No data files found. Run run_analysis.py first." := by
  rcases h with h | h <;> subst h <;> simp [generate_figures_main]

/-- C8 (witness with an empty rebounds list). -/
theorem C8_witness :
    (([] : List String) = [] ∨ ([ "a" ] : List String) = []) ∧
      generate_figures_main [] [ "a" ] =
        FigRunOutcome.aborted "No data files found. Run run_analysis.py first." :=
  ⟨Or.inl rfl, C8_missing_files_abort [] [ "a" ] (Or.inl rfl)⟩

/-- C9: the RMT prediction series of figure 4 is the hardcoded constant
`-0.05` for every modulus in `q_values` and does not depend on the simulator
output: any two simulator outputs yield the identical plotted series. -/
theorem C9_rmt_hardcoded (o1 o2 : List (Nat × ℚ)) :
    figure4_rmt_series o1 = figure4_rmt_series o2 ∧
      figure4_rmt_series o1 = List.replicate q_values.length (-5 / 100) ∧
      q_values.length = 6 :=
  ⟨rfl, rfl, rfl⟩

/-- C10: `normalize_gap` is total at the boundary: for every `gap` and every
`p ≤ 1` it returns `0.0` instead of dividing by zero or raising. -/
theorem C10_normalize_gap_total (gap p : ℝ) (h : p ≤ 1) :
    normalize_gap gap p = 0 := by
  rw [normalize_gap, if_pos h]

/-- C10 (witness at `gap = 8`, `p = 1`). -/
theorem C10_witness : (1 : ℝ) ≤ 1 ∧ normalize_gap 8 1 = 0 :=
  ⟨le_refl 1, C10_normalize_gap_total 8 1 (le_refl 1)⟩

/-! ## Sieve correctness (C1) -/

/-- The slice assignment clears exactly the multiples of `i` from `i*i` on. -/
theorem sieveMark_false_iff (s : Nat → Bool) (i n : Nat) (hi : 0 < i) :
    sieveMark s i n = false ↔ (i * i ≤ n ∧ i ∣ n) ∨ s n = false := by
  unfold sieveMark
  by_cases h : i * i ≤ n ∧ (n - i * i) % i = 0
  · rw [if_pos h]
    constructor
    · intro _
      refine Or.inl ⟨h.1, ?_⟩
      have hd : i ∣ n - i * i := Nat.dvd_of_mod_eq_zero h.2
      have hsum : i ∣ n - i * i + i * i := Nat.dvd_add hd (dvd_mul_right i i)
      rwa [Nat.sub_add_cancel h.1] at hsum
    · intro _
      rfl
  · rw [if_neg h]
    constructor
    · exact Or.inr
    · rintro (⟨hsq, hdvd⟩ | hsn)
      · exfalso
        refine h ⟨hsq, ?_⟩
        have hd : i ∣ n - i * i := Nat.dvd_sub' hdvd (dvd_mul_right i i)
        omega
      · exact hsn

/-- Invariant of the sieve loop: after the first `k` iterations (processing
the odd candidates `3, 5, ..., 2k+1`), an index is cleared exactly when it is
below 2, an even number at least 4, or divisible by some odd prime
`p ≤ 2k+1` with `p*p ≤ n`. -/
theorem sieveState_false_iff (k : Nat) : ∀ n,
    ((List.range k).map (fun j => 2 * j + 3)).foldl sieveStep sieveInit n = false ↔
      n < 2 ∨ (4 ≤ n ∧ 2 ∣ n) ∨
        ∃ p, Nat.Prime p ∧ p % 2 = 1 ∧ p < 2 * k + 3 ∧ p * p ≤ n ∧ p ∣ n := by
  induction k with
  | zero =>
    intro n
    simp only [List.range_zero, List.map_nil, List.foldl_nil]
    have hE3 : ¬ ∃ p, Nat.Prime p ∧ p % 2 = 1 ∧ p < 2 * 0 + 3 ∧ p * p ≤ n ∧ p ∣ n := by
      rintro ⟨p, hp, hodd, hlt, -, -⟩
      have := hp.two_le
      omega
    unfold sieveInit
    by_cases h2 : n < 2
    · simp [h2]
    · rw [if_neg h2]
      by_cases h4 : 4 ≤ n ∧ n % 2 = 0
      · rw [if_pos h4]
        constructor
        · intro _
          exact Or.inr (Or.inl ⟨h4.1, by omega⟩)
        · intro _
          rfl
      · rw [if_neg h4]
        constructor
        · intro h
          exact absurd h (by simp)
        · rintro (h | h | h)
          · exact absurd h h2
          · exact absurd ⟨h.1, by omega⟩ h4
          · exact absurd h hE3
  | succ k ih =>
    intro n
    rw [List.range_succ, List.map_append, List.foldl_append]
    simp only [List.map_cons, List.map_nil, List.foldl_cons, List.foldl_nil]
    set s := ((List.range k).map (fun j => 2 * j + 3)).foldl sieveStep sieveInit with hs
    set i := 2 * k + 3 with hi
    have hiodd : i % 2 = 1 := by omega
    by_cases hsi : s i = true
    · have hstep : sieveStep s i = sieveMark s i := by
        rw [sieveStep, if_pos hsi]
      have hiprime : Nat.Prime i := by
        by_contra hnp
        have hfac := Nat.minFac_prime (n := i) (by omega)
        have hdvd := Nat.minFac_dvd i
        have hsq : i.minFac * i.minFac ≤ i := by
          have h := Nat.minFac_sq_le_self (n := i) (by omega) hnp
          rwa [pow_two] at h
        have hoddp : i.minFac % 2 = 1 := by
          rcases hfac.eq_two_or_odd with h2 | h2
          · exfalso
            rw [h2] at hdvd
            omega
          · exact h2
        have hlt : i.minFac < i := by
          nlinarith [hfac.two_le]
        have hfalse : s i = false :=
          (ih i).mpr (Or.inr (Or.inr ⟨i.minFac, hfac, hoddp, by omega, hsq, hdvd⟩))
        rw [hfalse] at hsi
        exact Bool.noConfusion hsi
      rw [hstep, sieveMark_false_iff s i n (by omega), ih n]
      constructor
      · rintro (⟨hsqn, hdvdn⟩ | h | h | ⟨p, hp, hpo, hplt, hpsq, hpd⟩)
        · exact Or.inr (Or.inr ⟨i, hiprime, hiodd, by omega, hsqn, hdvdn⟩)
        · exact Or.inl h
        · exact Or.inr (Or.inl h)
        · exact Or.inr (Or.inr ⟨p, hp, hpo, by omega, hpsq, hpd⟩)
      · rintro (h | h | ⟨p, hp, hpo, hplt, hpsq, hpd⟩)
        · exact Or.inr (Or.inl h)
        · exact Or.inr (Or.inr (Or.inl h))
        · rcases Nat.lt_or_ge p i with hpi | hpi
          · exact Or.inr (Or.inr (Or.inr ⟨p, hp, hpo, by omega, hpsq, hpd⟩))
          · have hpe : p = i := by omega
            subst hpe
            exact Or.inl ⟨hpsq, hpd⟩
    · have hsif : s i = false := by
        cases h' : s i
        · rfl
        · exact absurd h' hsi
      have hstep : sieveStep s i = s := by
        rw [sieveStep, hsif]
        simp
      have hinp : ¬ Nat.Prime i := by
        intro hip
        rcases (ih i).mp hsif with h | h | ⟨p, hp, hpo, hplt, hpsq, hpd⟩
        · omega
        · omega
        · rcases hip.eq_one_or_self_of_dvd p hpd with h1 | h1
          · exact hp.ne_one h1
          · have := hp.two_le
            nlinarith
      rw [hstep, ih n]
      constructor
      · rintro (h | h | ⟨p, hp, hpo, hplt, hpsq, hpd⟩)
        · exact Or.inl h
        · exact Or.inr (Or.inl h)
        · exact Or.inr (Or.inr ⟨p, hp, hpo, by omega, hpsq, hpd⟩)
      · rintro (h | h | ⟨p, hp, hpo, hplt, hpsq, hpd⟩)
        · exact Or.inl h
        · exact Or.inr (Or.inl h)
        · rcases Nat.lt_or_ge p i with hpi | hpi
          · exact Or.inr (Or.inr ⟨p, hp, hpo, by omega, hpsq, hpd⟩)
          · have hpe : p = i := by omega
            subst hpe
            exact absurd hp hinp

/-- After the full sieve loop, an index `n ≤ limit` is still set exactly when
`n` is prime. -/
theorem sieveFinal_true_iff (limit n : Nat) (hn : n ≤ limit) :
    sieveFinal limit n = true ↔ Nat.Prime n := by
  have hiff := sieveState_false_iff (sieveCount limit) n
  have hform : sieveFinal limit n =
      ((List.range (sieveCount limit)).map (fun j => 2 * j + 3)).foldl sieveStep sieveInit n :=
    rfl
  constructor
  · intro htrue
    have hnot : ¬ (n < 2 ∨ (4 ≤ n ∧ 2 ∣ n) ∨ ∃ p, Nat.Prime p ∧ p % 2 = 1 ∧
        p < 2 * sieveCount limit + 3 ∧ p * p ≤ n ∧ p ∣ n) := by
      intro hbad
      have hfalse := hiff.mpr hbad
      rw [hform, hfalse] at htrue
      exact Bool.noConfusion htrue
    have hn2 : 2 ≤ n := by
      by_contra h2
      exact hnot (Or.inl (by omega))
    by_contra hnp
    have hfac := Nat.minFac_prime (n := n) (by omega)
    have hdvd := Nat.minFac_dvd n
    have hsq : n.minFac * n.minFac ≤ n := by
      have h := Nat.minFac_sq_le_self (n := n) (by omega) hnp
      rwa [pow_two] at h
    rcases hfac.eq_two_or_odd with h2 | hodd
    · refine hnot (Or.inr (Or.inl ⟨?_, ?_⟩))
      · rw [h2] at hsq
        omega
      · rw [h2] at hdvd
        exact hdvd
    · refine hnot (Or.inr (Or.inr ⟨n.minFac, hfac, hodd, ?_, hsq, hdvd⟩))
      have hple : n.minFac ≤ Nat.sqrt limit :=
        Nat.le_sqrt.mpr (le_trans hsq hn)
      have h2le := hfac.two_le
      rw [sieveCount]
      omega
  · intro hprime
    cases hfold : sieveFinal limit n with
    | true => rfl
    | false =>
      exfalso
      rw [hform] at hfold
      rcases hiff.mp hfold with h | ⟨h4, h2d⟩ | ⟨p, hp, hpo, hplt, hpsq, hpd⟩
      · have := hprime.two_le
        omega
      · rcases hprime.eq_one_or_self_of_dvd 2 h2d with h1 | h1
        · exact absurd h1 (by norm_num)
        · omega
      · rcases hprime.eq_one_or_self_of_dvd p hpd with h1 | h1
        · exact hp.ne_one h1
        · have := hp.two_le
          nlinarith

/-- C1: for every limit, `sieve_of_eratosthenes(limit)` returns exactly the
primes `p ≤ limit`, in strictly increasing order, returns `[]` when
`limit < 2`, and for `limit = 30` returns exactly
`[2, 3, 5, 7, 11, 13, 17, 19, 23, 29]`. -/
theorem C1_sieve_correct (limit : Nat) :
    (∀ p, p ∈ sieve_of_eratosthenes limit ↔ Nat.Prime p ∧ p ≤ limit) ∧
      List.Sorted (· < ·) (sieve_of_eratosthenes limit) ∧
      (limit < 2 → sieve_of_eratosthenes limit = []) ∧
      sieve_of_eratosthenes 30 = [2, 3, 5, 7, 11, 13, 17, 19, 23, 29] := by
  refine ⟨?_, ?_, ?_, ?_⟩
  · intro p
    by_cases hl : limit < 2
    · rw [sieve_of_eratosthenes, if_pos hl]
      simp only [List.not_mem_nil, false_iff]
      rintro ⟨hp, hple⟩
      have := hp.two_le
      omega
    · rw [sieve_of_eratosthenes, if_neg hl]
      rw [List.mem_filter, List.mem_range]
      constructor
      · rintro ⟨hmem, hsf⟩
        have hple : p ≤ limit := by omega
        exact ⟨(sieveFinal_true_iff limit p hple).mp hsf, hple⟩
      · rintro ⟨hp, hple⟩
        exact ⟨by omega, (sieveFinal_true_iff limit p hple).mpr hp⟩
  · by_cases hl : limit < 2
    · rw [sieve_of_eratosthenes, if_pos hl]
      exact List.sorted_nil
    · rw [sieve_of_eratosthenes, if_neg hl]
      exact (List.sorted_lt_range (limit + 1)).filter (sieveFinal limit)
  · intro hl
    rw [sieve_of_eratosthenes, if_pos hl]
  · have hsq : Nat.sqrt 30 = 5 := (Nat.eq_sqrt.mpr (by norm_num)).symm
    have hidx : sieveIdx 30 = [3, 5] := by
      simp only [sieveIdx, sieveCount, hsq]
      decide
    have hff : sieveFinal 30 = List.foldl sieveStep sieveInit [3, 5] := by
      rw [sieveFinal, hidx]
    rw [sieve_of_eratosthenes, if_neg (by norm_num), hff]
    decide

/-- C1 (witness at `limit = 10`, instantiating the universally quantified
theorem at a concrete input). -/
theorem C1_witness :
    (∀ p, p ∈ sieve_of_eratosthenes 10 ↔ Nat.Prime p ∧ p ≤ 10) ∧
      List.Sorted (· < ·) (sieve_of_eratosthenes 10) ∧
      (10 < 2 → sieve_of_eratosthenes 10 = []) ∧
      sieve_of_eratosthenes 30 = [2, 3, 5, 7, 11, 13, 17, 19, 23, 29] :=
  C1_sieve_correct 10
